import Mathlib

/-!
Shallow embedding of the expense-tracker core
(src/expense_tracker_app/data_manager.py and
src/expense_tracker_app/budget_manager.py) and proofs about it.

Modelling conventions:
* Python strings are lists of Unicode code points (List Nat); `pystr`
  converts a Lean string literal to this representation.
* Python expense-record dicts carry at most the keys id, amount, date,
  description inside this program, so a record is a structure of four
  Option fields; a missing dict key is None.
* Python dicts (the expense mapping, the budget mapping) are
  insertion-ordered association lists; lookup takes the first match.
* Monetary amounts are rationals; the source uses binary floats, and at
  every concrete input appearing in a theorem below the two arithmetics
  agree.
* File persistence (save_data, save_budgets) and Qt dashboard refresh
  have no effect on the in-memory state and are omitted; budget-alert
  recomputation (update_budget_alerts) only reads state.
-/

namespace ExpenseTracker

/-- A Python string as its list of code points. -/
abbrev PyStr := List Nat

/-- Convert a Lean string literal to the code-point representation. -/
def pystr (s : String) : PyStr := s.data.map Char.toNat

/-- Python str.isspace for the ASCII whitespace characters that can occur
in this program: space, \t, \n, \v, \f, \r. -/
def pyIsSpace (c : Nat) : Bool := c = 32 || c = 9 || c = 10 || c = 11 || c = 12 || c = 13

/-- ASCII uppercasing of one code point, the behaviour of Python
str.upper / the first step of str.capitalize on ASCII input. -/
def pyToUpper (c : Nat) : Nat := if 97 ≤ c ∧ c ≤ 122 then c - 32 else c

/-- ASCII lowercasing of one code point. -/
def pyToLower (c : Nat) : Nat := if 65 ≤ c ∧ c ≤ 90 then c + 32 else c

/-- Python str.lower over a whole string (ASCII range). -/
def pyLower (s : PyStr) : PyStr := s.map pyToLower

/-- Python str.strip(): drop leading and trailing whitespace. -/
def pyStrip (s : PyStr) : PyStr :=
  ((s.dropWhile pyIsSpace).reverse.dropWhile pyIsSpace).reverse

/-- Python str.capitalize(): first code point uppercased, the rest
lowercased (ASCII behaviour). -/
def pyCapitalize (s : PyStr) : PyStr :=
  match s with
  | [] => []
  | c :: cs => pyToUpper c :: cs.map pyToLower

/-- Worker of pySplit: `cur` is the current word accumulated in reverse;
a whitespace character (or the end of the string) flushes it. -/
def pySplitAux : PyStr → PyStr → List PyStr
  | [], cur => if cur = [] then [] else [cur.reverse]
  | c :: cs, cur =>
    if pyIsSpace c then
      if cur = [] then pySplitAux cs [] else cur.reverse :: pySplitAux cs []
    else pySplitAux cs (c :: cur)

/-- Python str.split() with no separator: split on runs of whitespace,
returning the (nonempty) words. -/
def pySplit (s : PyStr) : List PyStr := pySplitAux s []

/-- Python ' '.join. -/
def pyJoinSpace : List PyStr → PyStr
  | [] => []
  | [w] => w
  | w :: ws => w ++ 32 :: pyJoinSpace ws

/-- DataManager.normalize_category_name: return empty / whitespace-only
input unchanged, otherwise split on whitespace, strip and capitalize each
word and rejoin with single spaces. -/
def normalize_category_name (category : PyStr) : PyStr :=
  if category = [] ∨ pyStrip category = [] then category
  else pyJoinSpace ((pySplit category).map (fun w => pyCapitalize (pyStrip w)))

/-- An expense record: a Python dict whose keys, inside this program, are
at most id, amount, date, description. A missing key is `none`. -/
structure Rec where
  id : Option Int
  amount : Option Rat
  date : Option PyStr
  description : Option PyStr
deriving DecidableEq, Repr

/-- The expense mapping: a Python dict category -> list of records,
modelled as an insertion-ordered association list. -/
abbrev Store := List (PyStr × List Rec)

/-- First-match association-list lookup (Python dict subscript / get). -/
def alookup (k : PyStr) : List (PyStr × β) → Option β
  | [] => none
  | (k', v) :: rest => if k' = k then some v else alookup k rest

/-- Python `k in d`. -/
def amem (k : PyStr) (l : List (PyStr × β)) : Bool := (alookup k l).isSome

/-- Replace the value at key `k` (first occurrence) by `f` of it. -/
def aupdate (k : PyStr) (f : β → β) : List (PyStr × β) → List (PyStr × β)
  | [] => []
  | (k', v) :: rest => if k' = k then (k', f v) :: rest else (k', v) :: aupdate k f rest

/-- Python `del d[k]` (callers check membership first). -/
def adelete (k : PyStr) : List (PyStr × β) → List (PyStr × β)
  | [] => []
  | (k', v) :: rest => if k' = k then rest else (k', v) :: adelete k rest

/-- Python `d.setdefault(k, []).append(r)`: append to an existing entry,
or create the entry at the end of the dict. -/
def setdefaultAppend (k : PyStr) (r : Rec) (l : Store) : Store :=
  if amem k l then aupdate k (fun recs => recs ++ [r]) l else l ++ [(k, [r])]

/-- DataManager state: the expense mapping, the category registry and the
two undo attributes last_deleted / last_cleared. The backing file name,
the logger and the Qt plumbing carry no model state. -/
structure DM where
  expenses : Store
  categories : List PyStr
  last_deleted : Option (PyStr × Rec)
  last_cleared : Option Store
deriving DecidableEq, Repr

/-- The hardcoded starter category list from DataManager.__init__. -/
def defaultCategories : List PyStr :=
  [pystr "Food", pystr "Medical", pystr "Utilities", pystr "Travel",
   pystr "Clothing", pystr "Transportation", pystr "Vehicle", pystr "Uncategorized"]

/-- A DataManager as built by __init__ when no expense file exists. -/
def initialDM : DM :=
  { expenses := [], categories := defaultCategories,
    last_deleted := none, last_cleared := none }

/-- DataManager.category_exists: case-insensitive scan of the registry,
returning the first existing spelling whose normalization matches. -/
def category_exists (dm : DM) (category : PyStr) : Bool × Option PyStr :=
  let ni := normalize_category_name category
  match dm.categories.find? (fun ec => normalize_category_name ec == ni) with
  | some ec => (true, some ec)
  | none => (false, none)

/-- Python string comparison (lexicographic by code point), as list.sort
uses on the category registry. -/
def lexLe (a b : PyStr) : Bool :=
  match a, b with
  | [], _ => true
  | _ :: _, [] => false
  | x :: xs, y :: ys => if x < y then true else if y < x then false else lexLe xs ys

/-- Insert `x` into `l` before the first element it is ≤ to
(stable insertion step). -/
def insertLeB (le : α → α → Bool) (x : α) : List α → List α
  | [] => [x]
  | y :: ys => if le x y then x :: y :: ys else y :: insertLeB le x ys

/-- Stable insertion sort by a boolean comparator (Python list.sort /
sorted are stable). -/
def sortByB (le : α → α → Bool) : List α → List α
  | [] => []
  | x :: xs => insertLeB le x (sortByB le xs)

/-- The messages add_category can return, abstracting its f-strings. -/
inductive CatMsg
  | emptyName
  | alreadyInList (existing : PyStr)
  | alreadyExistsConflict (existing entered : PyStr)
  | added (name : PyStr)
deriving DecidableEq, Repr

/-- DataManager.add_category. `.error ()` is the ValueError the merge
branch raises; otherwise the result is (state, success, message). -/
def add_category (dm : DM) (category : PyStr) (merge_target : Option PyStr) :
    Except Unit (DM × Bool × CatMsg) :=
  if category = [] ∨ pyStrip category = [] then .ok (dm, false, .emptyName)
  else
    let nc := normalize_category_name category
    match (category_exists dm category).2 with
    | some existing =>
      if category = existing then .ok (dm, true, .alreadyInList existing)
      else .ok (dm, false, .alreadyExistsConflict existing category)
    | none =>
      let normalAdd : Except Unit (DM × Bool × CatMsg) :=
        let cats := if nc ∈ dm.categories then dm.categories
          else sortByB lexLe (dm.categories ++ [nc])
        .ok ({ dm with categories := cats }, true, .added nc)
      match merge_target with
      | none => normalAdd
      | some mt =>
        if mt = [] then normalAdd
        else
          let nmt := normalize_category_name mt
          if ¬ (amem category dm.expenses) ∨ nmt ∉ dm.categories then .error ()
          else
            let srcRecs := (alookup category dm.expenses).getD []
            let ex1 := if amem nmt dm.expenses
              then aupdate nmt (fun rs => rs ++ srcRecs) dm.expenses
              else dm.expenses ++ [(nmt, srcRecs)]
            let ex2 := adelete category ex1
            let cats := if category ∈ dm.categories
              then dm.categories.erase category else dm.categories
            .ok ({ dm with expenses := ex2, categories := cats }, true, .added nc)

/-- The fallback content match of DataManager.delete_expense:
amount, date and description compared via .get (None when absent). -/
def fieldMatch (r existing : Rec) : Bool :=
  existing.amount == r.amount && existing.date == r.date &&
    existing.description == r.description

/-- DataManager.delete_expense; the second argument is the Python
record-or-index union. Returns the new state and the boolean result. -/
def delete_expense (dm : DM) (category : PyStr) (record : Int ⊕ Rec) : DM × Bool :=
  let nc := normalize_category_name category
  match alookup nc dm.expenses with
  | none => (dm, false)
  | some recs =>
    match record with
    | .inl i =>
      if 0 ≤ i ∧ i < recs.length then
        let rdel := recs.getD i.toNat ⟨none, none, none, none⟩
        ({ dm with
            expenses := aupdate nc (fun rs => rs.erase rdel) dm.expenses
            last_deleted := some (nc, rdel) }, true)
      else (dm, false)
    | .inr r =>
      if r ∈ recs then
        ({ dm with
            expenses := aupdate nc (fun rs => rs.erase r) dm.expenses
            last_deleted := some (nc, r) }, true)
      else
        match recs.find? (fieldMatch r) with
        | some r' =>
          ({ dm with
              expenses := aupdate nc (fun rs => rs.erase r') dm.expenses
              last_deleted := some (nc, r') }, true)
        | none => (dm, false)

/-- DataManager.undo_delete: a pending clear snapshot (checked with
`is not None`, so even an empty one) wins over a pending single delete. -/
def undo_delete (dm : DM) : DM × Bool :=
  match dm.last_cleared with
  | some snap => ({ dm with expenses := snap, last_cleared := none }, true)
  | none =>
    match dm.last_deleted with
    | some (cat, rec) =>
      ({ dm with
          expenses := setdefaultAppend cat rec dm.expenses
          last_deleted := none }, true)
    | none => (dm, false)

/-- DataManager.clear_all: snapshot the mapping into last_cleared and
empty it; last_deleted is not touched. -/
def clear_all (dm : DM) : DM :=
  { dm with expenses := [], last_cleared := some dm.expenses }

/-- DataManager.undo_clear: restores only when last_cleared is truthy —
an empty snapshot (cleared-when-empty) is falsy and is not consumed. -/
def undo_clear (dm : DM) : DM × Bool :=
  match dm.last_cleared with
  | some snap =>
    if snap = [] then (dm, false)
    else ({ dm with expenses := snap, last_cleared := none }, true)
  | none => (dm, false)

/-- ASCII digit test. -/
def isDigit (c : Nat) : Bool := 48 ≤ c && c ≤ 57

/-- Numeric value of a digit string. -/
def digitsVal (s : PyStr) : Nat := s.foldl (fun a c => a * 10 + (c - 48)) 0

/-- Gregorian leap-year rule, as datetime uses. -/
def isLeap (y : Nat) : Bool := y % 4 = 0 && (y % 100 ≠ 0 || y % 400 = 0)

/-- Days in a month, as datetime validates. -/
def daysInMonth (y m : Nat) : Nat :=
  if m = 2 then (if isLeap y then 29 else 28)
  else if m = 4 ∨ m = 6 ∨ m = 9 ∨ m = 11 then 30 else 31

/-- datetime.strptime(s, "%Y-%m-%d") reduced to success plus the parsed
triple: an exactly-4-digit year, a dash, a 1-2 digit month (1..9 or
01..12), a dash, a 1-2 digit day (1..9 or 01..31) ending the string,
and the triple must be a real calendar date (year ≥ 1, day within the
month). -/
def parseDate (s : PyStr) : Option (Nat × Nat × Nat) :=
  let ys := s.takeWhile isDigit
  if ¬ ys.length = 4 then none
  else
    match s.dropWhile isDigit with
    | 45 :: r2 =>
      let ms := r2.takeWhile isDigit
      let m := digitsVal ms
      if ¬ ((ms.length = 1 ∨ ms.length = 2) ∧ 1 ≤ m ∧ m ≤ 12) then none
      else
        match r2.dropWhile isDigit with
        | 45 :: ds =>
          let d := digitsVal ds
          if ds.all isDigit ∧ (ds.length = 1 ∨ ds.length = 2) ∧ 1 ≤ d ∧ d ≤ 31 then
            let y := digitsVal ys
            if 1 ≤ y ∧ d ≤ daysInMonth y m then some (y, m, d) else none
          else none
        | _ => none
    | _ => none

/-- One element of DataManager.list_all_expenses: a dict with exactly the
keys category, amount, date, description (no id key). -/
structure Flat where
  category : PyStr
  amount : Rat
  date : PyStr
  description : PyStr
deriving DecidableEq, Repr

/-- DataManager.list_all_expenses: flatten the mapping, reading each
field with a .get default. -/
def list_all_expenses (dm : DM) : List Flat :=
  dm.expenses.flatMap (fun p => p.2.map (fun r =>
    { category := p.1, amount := r.amount.getD 0,
      date := r.date.getD [], description := r.description.getD [] }))

/-- e.get("id", 0) for a dict built by list_all_expenses: those dicts
carry no "id" key, so the default is always returned. -/
def Flat.getIdD (_ : Flat) (d : Int) : Int := d

/-- Python max over a list (the caller guards the empty case with 0). -/
def pyMax (l : List Int) : Int :=
  match l with
  | [] => 0
  | x :: xs => xs.foldl max x

/-- DataManager.add_expense. `none` is the ValueError raised for a
non-positive amount or an unparsable date; otherwise the updated state
and the returned value True. -/
def add_expense (dm : DM) (category : PyStr) (amount : Rat) (date : PyStr)
    (description : PyStr) : Option (DM × Bool) :=
  if amount ≤ 0 then none
  else if (parseDate date).isNone then none
  else
    let nc := normalize_category_name category
    let cats := if nc ∈ dm.categories then dm.categories
      else sortByB lexLe (dm.categories ++ [nc])
    let maxId := pyMax ((list_all_expenses dm).map (fun e => e.getIdD 0))
    let newRec : Rec := { id := some (maxId + 1)
                          amount := some amount
                          date := some date
                          description := some description }
    some ({ dm with
            categories := cats
            expenses := setdefaultAppend nc newRec dm.expenses }, true)

/-- The new-field dict passed to DataManager.update_expense; every key
is optional and falls back to the old record. -/
structure NewData where
  category : Option PyStr
  amount : Option Rat
  date : Option PyStr
  description : Option PyStr
deriving DecidableEq, Repr

/-- DataManager.update_expense: remove the old record by value, insert a
fresh three-field record (amount, date, description — no id) into the
target category; false without mutation when the old record is absent. -/
def update_expense (dm : DM) (old_category : PyStr) (old_record : Rec)
    (new_data : NewData) : DM × Bool :=
  let noc := normalize_category_name old_category
  match alookup noc dm.expenses with
  | none => (dm, false)
  | some recs =>
    if old_record ∈ recs then
      let ex1 := aupdate noc (fun rs => rs.erase old_record) dm.expenses
      let cat := normalize_category_name (new_data.category.getD noc)
      let amount := new_data.amount.getD (old_record.amount.getD 0)
      let date := new_data.date.getD (old_record.date.getD [])
      let desc := new_data.description.getD (old_record.description.getD [])
      let newRec : Rec := { id := none
                            amount := some amount
                            date := some date
                            description := some desc }
      ({ dm with expenses := setdefaultAppend cat newRec ex1 }, true)
    else (dm, false)

/-- Sort key of DataManager.get_sorted_expenses: a missing or empty date
is datetime.max (above every parsable date), an unparsable non-empty
date is `none` — the strptime ValueError escaping the key function. -/
def recDateKey (r : Rec) : Option Nat :=
  match r.date with
  | none => some 99991232
  | some ds =>
    if ds = [] then some 99991232
    else (parseDate ds).map (fun t => t.1 * 10000 + t.2.1 * 100 + t.2.2)

/-- One category's list in DataManager.get_sorted_expenses: sorted by the
date key unless some record raises inside the key function, in which
case the except branch returns the records as they are. -/
def sortRecsByDate (recs : List Rec) : List Rec :=
  if recs.all (fun r => (recDateKey r).isSome) then
    sortByB (fun a b => decide ((recDateKey a).getD 0 ≤ (recDateKey b).getD 0)) recs
  else recs

/-- DataManager.get_sorted_expenses. -/
def get_sorted_expenses (dm : DM) : Store :=
  dm.expenses.map (fun p => (p.1, sortRecsByDate p.2))

/-- BudgetManager state: the budgets dict (category -> monthly limit). -/
structure BM where
  budgets : List (PyStr × Rat)
deriving DecidableEq, Repr

/-- BudgetManager._normalize_category_name: first case-insensitive match
among budget keys, then the registry, then expense categories (the
source iterates a set there; this model scans in mapping order), else
the input unchanged. -/
def bmNormalizeCategoryName (bm : BM) (dm : DM) (category : PyStr) : PyStr :=
  let cl := pyLower category
  match bm.budgets.find? (fun p => pyLower p.1 == cl) with
  | some p => p.1
  | none =>
    match dm.categories.find? (fun ec => pyLower ec == cl) with
    | some ec => ec
    | none =>
      match (list_all_expenses dm).find? (fun e => pyLower e.category == cl) with
      | some e => e.category
      | none => category

/-- BudgetManager.set_budget: reject a negative limit, else store under
the normalized key; save_budgets is modelled as succeeding, so the
returned boolean is true. -/
def set_budget (bm : BM) (dm : DM) (category : PyStr) (amount : Rat) : BM × Bool :=
  if amount < 0 then (bm, false)
  else
    let nc := bmNormalizeCategoryName bm dm category
    let budgets := if amem nc bm.budgets then aupdate nc (fun _ => amount) bm.budgets
      else bm.budgets ++ [(nc, amount)]
    ({ budgets := budgets }, true)

/-- BudgetManager._get_monthly_spending: sum the amounts of the flattened
expenses whose category matches case-insensitively and whose date
starts with the month prefix. (Amounts are rationals in the model, so
the non-numeric-amount skip never fires.) -/
def monthly_spending (dm : DM) (category : PyStr) (month : PyStr) : Rat :=
  ((list_all_expenses dm).filter (fun e =>
      pyLower e.category == pyLower category && month.isPrefixOf e.date)).foldl
    (fun acc e => acc + e.amount) 0

/-- An alert string of BudgetManager.check_budget_alerts, abstracted to
its kind and the numbers it interpolates. -/
inductive Alert
  | critical (category : PyStr) (spent limit over : Rat)
  | warning (category : PyStr) (spent limit : Rat)
deriving DecidableEq, Repr

/-- One loop iteration of BudgetManager.check_budget_alerts for the
budget entry `p`: spending strictly above the limit is critical (with
the overspend), else spending strictly above 0.8 × limit is a warning,
else nothing. -/
def alertFor (dm : DM) (current_month : PyStr) (p : PyStr × Rat) : Option Alert :=
  let s := monthly_spending dm p.1 current_month
  if p.2 < s then some (.critical p.1 s p.2 (s - p.2))
  else if p.2 * (4 / 5 : Rat) < s then some (.warning p.1 s p.2)
  else none

/-- BudgetManager.check_budget_alerts, with the current month passed in
place of datetime.now(): the empty-budgets shortcut, then one optional
alert per budget entry in dict order. -/
def check_budget_alerts (bm : BM) (dm : DM) (current_month : PyStr) : List Alert :=
  if bm.budgets = [] then []
  else bm.budgets.filterMap (alertFor dm current_month)

/-- Does this alert concern the given category with critical severity? -/
def Alert.isCriticalFor (c : PyStr) : Alert → Bool
  | .critical c' _ _ _ => c' == c
  | _ => false

/-- Does this alert concern the given category with warning severity? -/
def Alert.isWarningFor (c : PyStr) : Alert → Bool
  | .warning c' _ _ => c' == c
  | _ => false

/-- The inner loop of DataManager.load_expense over one category's
records: give each record lacking an id the next sequential id. -/
def assignIdsRecs : Int → List Rec → List Rec × Int
  | n, [] => ([], n)
  | n, r :: rs =>
    if r.id = none then
      let p := assignIdsRecs (n + 1) rs
      ({ r with id := some n } :: p.1, p.2)
    else
      let p := assignIdsRecs n rs
      (r :: p.1, p.2)

/-- The id-assignment pass of DataManager.load_expense over the whole
mapping, threading the counter across categories. -/
def assignIdsStore : Int → Store → Store × Int
  | n, [] => ([], n)
  | n, (c, rs) :: rest =>
    let p := assignIdsRecs n rs
    let q := assignIdsStore p.2 rest
    ((c, p.1) :: q.1, q.2)

/-- DataManager.load_expense after a successful json.load: the expense
mapping with sequential ids (from 1) assigned to records lacking one. -/
def loadAssignIds (es : Store) : Store := (assignIdsStore 1 es).1

/-- All ids present in one record list. -/
def recsIds (rs : List Rec) : List Int := rs.filterMap (fun r => r.id)

/-- All ids present in the mapping, in order. -/
def storeIds (es : Store) : List Int := es.flatMap (fun p => recsIds p.2)

/-- How many records of the list lack an id. -/
def recsNoneCount (rs : List Rec) : Nat := (rs.filter (fun r => r.id = none)).length

/-- How many records of the mapping lack an id. -/
def storeNoneCount (es : Store) : Nat := (es.map (fun p => recsNoneCount p.2)).sum

/-! ### Association-list lemmas -/

theorem alookup_aupdate_self (k : PyStr) (f : β → β) (l : List (PyStr × β)) :
    alookup k (aupdate k f l) = (alookup k l).map f := by
  induction l with
  | nil => rfl
  | cons p rest ih =>
    obtain ⟨k', v⟩ := p
    by_cases h : k' = k
    · simp [aupdate, alookup, h]
    · simp [aupdate, alookup, h, ih]

theorem alookup_aupdate_ne (k k' : PyStr) (hne : k' ≠ k) (f : β → β)
    (l : List (PyStr × β)) : alookup k' (aupdate k f l) = alookup k' l := by
  induction l with
  | nil => rfl
  | cons p rest ih =>
    obtain ⟨k₀, v⟩ := p
    by_cases h : k₀ = k
    · have hk : ¬ k = k' := by
        intro hh; exact hne hh.symm
      simp [aupdate, alookup, h, hk]
    · by_cases h' : k₀ = k'
      · simp [aupdate, alookup, h, h', hne]
      · simp [aupdate, alookup, h, h', ih]

theorem aupdate_keys (k : PyStr) (f : β → β) (l : List (PyStr × β)) :
    (aupdate k f l).map Prod.fst = l.map Prod.fst := by
  induction l with
  | nil => rfl
  | cons p rest ih =>
    obtain ⟨k₀, v⟩ := p
    by_cases h : k₀ = k <;> simp [aupdate, h, ih]

theorem alookup_append (k : PyStr) (l₁ l₂ : List (PyStr × β)) :
    alookup k (l₁ ++ l₂) = ((alookup k l₁).or (alookup k l₂)) := by
  induction l₁ with
  | nil => rfl
  | cons p rest ih =>
    obtain ⟨k₀, v⟩ := p
    by_cases h : k₀ = k <;> simp [alookup, h, ih]

theorem alookup_setdefaultAppend_self (k : PyStr) (r : Rec) (l : Store) :
    alookup k (setdefaultAppend k r l) = some ((alookup k l).getD [] ++ [r]) := by
  unfold setdefaultAppend amem
  by_cases h : (alookup k l).isSome
  · obtain ⟨v, hv⟩ := Option.isSome_iff_exists.mp h
    simp [h, alookup_aupdate_self, hv]
  · have hnone : alookup k l = none := Option.not_isSome_iff_eq_none.mp h
    simp [h, alookup_append, hnone, alookup]

theorem alookup_setdefaultAppend_ne (k k' : PyStr) (hne : k' ≠ k) (r : Rec)
    (l : Store) : alookup k' (setdefaultAppend k r l) = alookup k' l := by
  unfold setdefaultAppend
  by_cases h : amem k l
  · simp [h, alookup_aupdate_ne k k' hne]
  · have hk : ¬ k = k' := by
      intro hh; exact hne hh.symm
    simp [h, alookup_append, alookup, hne, hk]

theorem setdefaultAppend_keys_of_mem (k : PyStr) (r : Rec) (l : Store)
    (h : amem k l) :
    (setdefaultAppend k r l).map Prod.fst = l.map Prod.fst := by
  simp [setdefaultAppend, h, aupdate_keys]

/-! ### Sorting lemmas for the stable insertion sort -/

theorem insertLeB_perm (le : α → α → Bool) (x : α) (l : List α) :
    List.Perm (insertLeB le x l) (x :: l) := by
  induction l with
  | nil => rfl
  | cons y ys ih =>
    by_cases h : le x y
    · simp [insertLeB, h]
    · simp only [insertLeB, h]
      exact ((ih.cons y).trans (List.Perm.swap x y ys)).symm.symm

theorem sortByB_perm (le : α → α → Bool) (l : List α) :
    List.Perm (sortByB le l) l := by
  induction l with
  | nil => rfl
  | cons x xs ih => exact (insertLeB_perm le x (sortByB le xs)).trans (ih.cons x)

/-- Order-respecting insertion: inserting into a chain keeps it a chain,
provided the comparator is total. -/
theorem insertLeB_chain (le : α → α → Bool)
    (htot : ∀ a b, le a b = true ∨ le b a = true) (x : α) (l : List α)
    (hl : List.Chain' (fun a b => le a b = true) l) :
    List.Chain' (fun a b => le a b = true) (insertLeB le x l) := by
  induction l with
  | nil => simp [insertLeB]
  | cons y ys ih =>
    by_cases h : le x y
    · simp only [insertLeB, h, if_pos]
      exact hl.cons h
    · simp only [insertLeB, h]
      rw [if_neg (by simp [h])]
      have hyx : le y x = true := by
        rcases htot x y with htt | htt
        · exact absurd htt (by simp [h])
        · exact htt
      have hys := hl.tail
      have ihh := ih hys
      cases ys with
      | nil => exact List.chain'_cons.mpr ⟨by simpa [insertLeB] using hyx, by simp [insertLeB]⟩
      | cons z zs =>
        by_cases hxz : le x z
        · have h1 : insertLeB le x (z :: zs) = x :: z :: zs := by
            simp [insertLeB, hxz]
          rw [h1]
          exact List.chain'_cons.mpr ⟨hyx, List.chain'_cons.mpr ⟨hxz, hl.tail⟩⟩
        · have h1 : insertLeB le x (z :: zs) = z :: insertLeB le x zs := by
            simp [insertLeB, hxz]
          rw [h1]
          rw [h1] at ihh
          exact List.chain'_cons.mpr ⟨(List.chain'_cons.mp hl).1, ihh⟩

theorem sortByB_chain (le : α → α → Bool)
    (htot : ∀ a b, le a b = true ∨ le b a = true) (l : List α) :
    List.Chain' (fun a b => le a b = true) (sortByB le l) := by
  induction l with
  | nil => simp [sortByB]
  | cons x xs ih => exact insertLeB_chain le htot x (sortByB le xs) ih

/-! ### String-primitive lemmas, towards normalization idempotence -/

theorem pyIsSpace_pyToUpper {c : Nat} (h : pyIsSpace c = false) :
    pyIsSpace (pyToUpper c) = false := by
  unfold pyToUpper
  split
  · simp only [pyIsSpace, Bool.or_eq_false_iff, decide_eq_false_iff_not] at h ⊢
    omega
  · exact h

theorem pyIsSpace_pyToLower {c : Nat} (h : pyIsSpace c = false) :
    pyIsSpace (pyToLower c) = false := by
  unfold pyToLower
  split
  · simp only [pyIsSpace, Bool.or_eq_false_iff, decide_eq_false_iff_not] at h ⊢
    omega
  · exact h

theorem pyToUpper_pyToUpper (c : Nat) : pyToUpper (pyToUpper c) = pyToUpper c := by
  by_cases h : 97 ≤ c ∧ c ≤ 122
  · have h1 : pyToUpper c = c - 32 := by unfold pyToUpper; rw [if_pos h]
    rw [h1]
    unfold pyToUpper
    rw [if_neg (by omega)]
  · have h1 : pyToUpper c = c := by unfold pyToUpper; rw [if_neg h]
    rw [h1, h1]

theorem pyToLower_pyToLower (c : Nat) : pyToLower (pyToLower c) = pyToLower c := by
  by_cases h : 65 ≤ c ∧ c ≤ 90
  · have h1 : pyToLower c = c + 32 := by unfold pyToLower; rw [if_pos h]
    rw [h1]
    unfold pyToLower
    rw [if_neg (by omega)]
  · have h1 : pyToLower c = c := by unfold pyToLower; rw [if_neg h]
    rw [h1, h1]

theorem pyCapitalize_idem (w : PyStr) :
    pyCapitalize (pyCapitalize w) = pyCapitalize w := by
  cases w with
  | nil => rfl
  | cons c cs =>
    simp [pyCapitalize, pyToUpper_pyToUpper, List.map_map, Function.comp,
      pyToLower_pyToLower]

theorem pyCapitalize_ne_nil {w : PyStr} (h : w ≠ []) : pyCapitalize w ≠ [] := by
  cases w with
  | nil => exact absurd rfl h
  | cons c cs => simp [pyCapitalize]

theorem pyCapitalize_nonspace {w : PyStr} (h : ∀ c ∈ w, pyIsSpace c = false) :
    ∀ c ∈ pyCapitalize w, pyIsSpace c = false := by
  cases w with
  | nil => simp [pyCapitalize]
  | cons c cs =>
    intro d hd
    simp only [pyCapitalize, List.mem_cons] at hd
    rcases hd with h1 | h2
    · subst h1
      exact pyIsSpace_pyToUpper (h c (by simp))
    · obtain ⟨e, he, rfl⟩ := List.mem_map.mp h2
      exact pyIsSpace_pyToLower (h e (by simp [he]))

theorem dropWhile_eq_self_of_none (p : Nat → Bool) (l : PyStr)
    (h : ∀ c ∈ l, p c = false) : l.dropWhile p = l := by
  cases l with
  | nil => rfl
  | cons c cs => rw [List.dropWhile_cons_of_neg (by simp [h c (by simp)])]

theorem pyStrip_eq_self {w : PyStr} (h : ∀ c ∈ w, pyIsSpace c = false) :
    pyStrip w = w := by
  unfold pyStrip
  rw [dropWhile_eq_self_of_none _ _ h,
    dropWhile_eq_self_of_none _ _ (fun c hc => h c (List.mem_reverse.mp hc)),
    List.reverse_reverse]

theorem pyStrip_eq_nil_iff {s : PyStr} :
    pyStrip s = [] ↔ ∀ c ∈ s, pyIsSpace c = true := by
  constructor
  · intro h c hc
    unfold pyStrip at h
    rw [List.reverse_eq_nil_iff, List.dropWhile_eq_nil_iff] at h
    have hsplit := List.takeWhile_append_dropWhile (p := pyIsSpace) (l := s)
    rw [← hsplit] at hc
    rcases List.mem_append.mp hc with h1 | h2
    · exact List.mem_takeWhile_imp h1
    · exact h c (List.mem_reverse.mpr h2)
  · intro h
    unfold pyStrip
    rw [List.dropWhile_eq_nil_iff.mpr (fun x hx => h x hx)]
    rfl

theorem pySplitAux_word (w s cur : PyStr) (hw : ∀ c ∈ w, pyIsSpace c = false) :
    pySplitAux (w ++ s) cur = pySplitAux s (w.reverse ++ cur) := by
  induction w generalizing cur with
  | nil => simp
  | cons c cs ih =>
    have hc : pyIsSpace c = false := hw c (by simp)
    simp only [List.cons_append, pySplitAux, hc, Bool.false_eq_true, if_false,
      List.reverse_cons, List.append_assoc, List.singleton_append]
    exact ih (c :: cur) (fun d hd => hw d (by simp [hd]))

theorem pySplitAux_flush (s cur : PyStr) (h : cur ≠ []) :
    pySplitAux (32 :: s) cur = cur.reverse :: pySplitAux s [] := by
  simp [pySplitAux, pyIsSpace, h]

theorem pySplit_pyJoinSpace (ws : List PyStr)
    (hne : ∀ w ∈ ws, w ≠ [])
    (hns : ∀ w ∈ ws, ∀ c ∈ w, pyIsSpace c = false) :
    pySplit (pyJoinSpace ws) = ws := by
  induction ws with
  | nil => rfl
  | cons w ws ih =>
    cases ws with
    | nil =>
      show pySplitAux w [] = [w]
      have := pySplitAux_word w [] [] (hns w (by simp))
      rw [List.append_nil] at this
      rw [this]
      simp [pySplitAux, List.reverse_eq_nil_iff, hne w (by simp)]
    | cons w' ws' =>
      show pySplitAux (w ++ 32 :: pyJoinSpace (w' :: ws')) [] = w :: w' :: ws'
      rw [pySplitAux_word w _ [] (hns w (by simp)), List.append_nil,
        pySplitAux_flush _ _ (by simp [List.reverse_eq_nil_iff, hne w (by simp)]),
        List.reverse_reverse]
      exact congrArg (w :: ·)
        (ih (fun u hu => hne u (by simp [hu])) (fun u hu => hns u (by simp [hu])))

theorem pySplitAux_ne_nil_of_cur (s : PyStr) : ∀ cur, cur ≠ [] → pySplitAux s cur ≠ [] := by
  induction s with
  | nil => intro cur h; simp [pySplitAux, h]
  | cons c cs ih =>
    intro cur h
    by_cases hc : pyIsSpace c
    · simp [pySplitAux, hc, h]
    · simp only [pySplitAux, hc, Bool.false_eq_true, if_false]
      exact ih (c :: cur) (by simp)

theorem pySplit_ne_nil {s : PyStr} (h : ¬ ∀ c ∈ s, pyIsSpace c = true) :
    pySplit s ≠ [] := by
  push_neg at h
  obtain ⟨c, hc, hcs⟩ := h
  unfold pySplit
  induction s with
  | nil => simp at hc
  | cons d ds ih =>
    by_cases hd : pyIsSpace d
    · have hdc : c ∈ ds := by
        rcases List.mem_cons.mp hc with h1 | h2
        · subst h1; exact absurd hd hcs
        · exact h2
      simp only [pySplitAux, hd, if_pos, if_true]
      exact ih hdc
    · simp only [pySplitAux, hd, Bool.false_eq_true, if_false]
      exact pySplitAux_ne_nil_of_cur ds [d] (by simp)

theorem pySplitAux_words (s : PyStr) :
    ∀ cur, (∀ c ∈ cur, pyIsSpace c = false) →
      ∀ w ∈ pySplitAux s cur, w ≠ [] ∧ ∀ c ∈ w, pyIsSpace c = false := by
  induction s with
  | nil =>
    intro cur hcur w hw
    by_cases h : cur = []
    · simp [pySplitAux, h] at hw
    · simp only [pySplitAux, h, if_neg, if_false, List.mem_singleton] at hw
      subst hw
      exact ⟨by simp [List.reverse_eq_nil_iff, h],
        fun c hc => hcur c (List.mem_reverse.mp hc)⟩
  | cons c cs ih =>
    intro cur hcur w hw
    by_cases hc : pyIsSpace c
    · by_cases h : cur = []
      · simp only [pySplitAux, hc, if_true, h, if_pos] at hw
        exact ih [] (by simp) w hw
      · simp only [pySplitAux, hc, if_true, h, if_neg, if_false, List.mem_cons] at hw
        rcases hw with h1 | h2
        · subst h1
          exact ⟨by simp [List.reverse_eq_nil_iff, h],
            fun d hd => hcur d (List.mem_reverse.mp hd)⟩
        · exact ih [] (by simp) w h2
    · simp only [pySplitAux, hc, Bool.false_eq_true, if_false] at hw
      refine ih (c :: cur) ?_ w hw
      intro d hd
      rcases List.mem_cons.mp hd with h1 | h2
      · subst h1; simpa using hc
      · exact hcur d h2

theorem mem_pyJoinSpace_of_mem_head {w : PyStr} {ws : List PyStr} {c : Nat}
    (hc : c ∈ w) : c ∈ pyJoinSpace (w :: ws) := by
  cases ws with
  | nil => exact hc
  | cons w' ws' => simp [pyJoinSpace, hc]

/-- The words produced by pySplit are nonempty and whitespace-free. -/
theorem pySplit_words {s : PyStr} :
    ∀ w ∈ pySplit s, w ≠ [] ∧ ∀ c ∈ w, pyIsSpace c = false :=
  fun w hw => pySplitAux_words s [] (by simp) w hw

/-- On a non-trivial input, normalize_category_name is join of capitalized
split words (the per-word strip is the identity there). -/
theorem normalize_eq_join_cap {s : PyStr} (h : ¬ (s = [] ∨ pyStrip s = [])) :
    normalize_category_name s = pyJoinSpace ((pySplit s).map pyCapitalize) := by
  unfold normalize_category_name
  rw [if_neg h]
  congr 1
  exact List.map_congr_left (fun w hw => by rw [pyStrip_eq_self (pySplit_words w hw).2])

/-- C7 — normalize_category_name is idempotent, and empty or
whitespace-only input is returned unchanged. -/
theorem c7_normalize_idempotent (s : PyStr) :
    normalize_category_name (normalize_category_name s) = normalize_category_name s ∧
    ((s = [] ∨ pyStrip s = []) → normalize_category_name s = s) := by
  have htriv : ∀ t : PyStr, (t = [] ∨ pyStrip t = []) → normalize_category_name t = t := by
    intro t ht
    unfold normalize_category_name
    rw [if_pos ht]
  refine ⟨?_, htriv s⟩
  by_cases h : s = [] ∨ pyStrip s = []
  · rw [htriv s h, htriv s h]
  · have h2 : ¬ ∀ c ∈ s, pyIsSpace c = true := by
      intro hall
      exact h (Or.inr (pyStrip_eq_nil_iff.mpr hall))
    have hsplit_ne : pySplit s ≠ [] := pySplit_ne_nil h2
    have hcap_ne : ∀ w ∈ (pySplit s).map pyCapitalize, w ≠ [] := by
      intro w hw
      obtain ⟨u, hu, rfl⟩ := List.mem_map.mp hw
      exact pyCapitalize_ne_nil (pySplit_words u hu).1
    have hcap_ns : ∀ w ∈ (pySplit s).map pyCapitalize, ∀ c ∈ w, pyIsSpace c = false := by
      intro w hw
      obtain ⟨u, hu, rfl⟩ := List.mem_map.mp hw
      exact pyCapitalize_nonspace (pySplit_words u hu).2
    obtain ⟨w₁, ws', hcons⟩ : ∃ w₁ ws', (pySplit s).map pyCapitalize = w₁ :: ws' := by
      cases hm : (pySplit s).map pyCapitalize with
      | nil => exact absurd (List.map_eq_nil_iff.mp hm) hsplit_ne
      | cons a l => exact ⟨a, l, rfl⟩
    have hw₁ : w₁ ∈ (pySplit s).map pyCapitalize := by rw [hcons]; simp
    obtain ⟨c₁, hc₁⟩ := List.exists_mem_of_ne_nil w₁ (hcap_ne w₁ hw₁)
    have hcmem : c₁ ∈ pyJoinSpace ((pySplit s).map pyCapitalize) := by
      rw [hcons]
      exact mem_pyJoinSpace_of_mem_head hc₁
    have hcns : pyIsSpace c₁ = false := hcap_ns w₁ hw₁ c₁ hc₁
    have hguard : ¬ (pyJoinSpace ((pySplit s).map pyCapitalize) = [] ∨
        pyStrip (pyJoinSpace ((pySplit s).map pyCapitalize)) = []) := by
      rintro (h1 | h1)
      · rw [h1] at hcmem
        simp at hcmem
      · have := pyStrip_eq_nil_iff.mp h1 c₁ hcmem
        rw [hcns] at this
        exact Bool.false_ne_true this
    rw [normalize_eq_join_cap h, normalize_eq_join_cap hguard,
      pySplit_pyJoinSpace _ hcap_ne hcap_ns]
    congr 1
    rw [List.map_map]
    exact List.map_congr_left (fun w hw => pyCapitalize_idem w)

/-- Witness for C7 at concrete inputs: a messy string, the empty string
and a whitespace-only string. -/
theorem c7_normalize_idempotent_witness :
    normalize_category_name (normalize_category_name (pystr "  hello   wORLD  ")) =
      normalize_category_name (pystr "  hello   wORLD  ") ∧
    ((pystr "   " = [] ∨ pyStrip (pystr "   ") = []) →
      normalize_category_name (pystr "   ") = pystr "   ") ∧
    normalize_category_name (pystr "   ") = pystr "   " :=
  ⟨(c7_normalize_idempotent (pystr "  hello   wORLD  ")).1,
   (c7_normalize_idempotent (pystr "   ")).2,
   (c7_normalize_idempotent (pystr "   ")).2 (Or.inr (by decide))⟩

/-! ### C5: add_category case-insensitive behaviour -/

/-- C5 counterexample — the claim says addCategory("Food") then
addCategory("food") both return success; on the default registry the
first returns True (already in the list, state unchanged) but the
second returns False, reporting the existing spelling "Food". -/
theorem c5_counterexample :
    add_category initialDM (pystr "Food") none =
      .ok (initialDM, true, .alreadyInList (pystr "Food")) ∧
    add_category initialDM (pystr "food") none =
      .ok (initialDM, false, .alreadyExistsConflict (pystr "Food") (pystr "food")) := by
  constructor
  · with_unfolding_all rfl
  · with_unfolding_all rfl

/-- C5 amended — addCategory("Food") succeeds idempotently and
addCategory("food") is rejected with the existing spelling; either way
the registry keeps exactly one entry, "Food", for that case-insensitive
class; addCategory("Groceries") then succeeds and adds a distinct second
entry (re-sorting the registry). -/
theorem c5_add_category_case_insensitive :
    add_category initialDM (pystr "Food") none =
      .ok (initialDM, true, .alreadyInList (pystr "Food")) ∧
    add_category initialDM (pystr "food") none =
      .ok (initialDM, false, .alreadyExistsConflict (pystr "Food") (pystr "food")) ∧
    initialDM.categories.filter (fun c => pyLower c == pyLower (pystr "Food")) =
      [pystr "Food"] ∧
    add_category initialDM (pystr "Groceries") none =
      .ok ({ initialDM with categories :=
              [pystr "Clothing", pystr "Food", pystr "Groceries", pystr "Medical",
               pystr "Transportation", pystr "Travel", pystr "Uncategorized",
               pystr "Utilities", pystr "Vehicle"] }, true,
            .added (pystr "Groceries")) ∧
    [pystr "Clothing", pystr "Food", pystr "Groceries", pystr "Medical",
     pystr "Transportation", pystr "Travel", pystr "Uncategorized",
     pystr "Utilities", pystr "Vehicle"].filter
        (fun c => pyLower c == pyLower (pystr "Groceries")) = [pystr "Groceries"] ∧
    [pystr "Clothing", pystr "Food", pystr "Groceries", pystr "Medical",
     pystr "Transportation", pystr "Travel", pystr "Uncategorized",
     pystr "Utilities", pystr "Vehicle"].filter
        (fun c => pyLower c == pyLower (pystr "Food")) = [pystr "Food"] := by
  refine ⟨?_, ?_, ?_, ?_, ?_, ?_⟩
  · with_unfolding_all rfl
  · with_unfolding_all rfl
  · with_unfolding_all rfl
  · with_unfolding_all rfl
  · with_unfolding_all rfl
  · with_unfolding_all rfl

/-! ### C1: the undo state -/

/-- Concrete record for the C1 scenario. -/
def c1rec : Rec :=
  { id := some 1, amount := some 10, date := some (pystr "2023-01-01"),
    description := some (pystr "Lunch") }

/-- Concrete one-record store for the C1 scenario. -/
def c1dm : DM :=
  { expenses := [(pystr "Food", [c1rec])], categories := defaultCategories,
    last_deleted := none, last_cleared := none }

/-- C1 counterexample — the claim says the undo buffer holds at most one
pending reversible operation, the newest overwriting any prior
content. But a successful deleteExpense followed by clearAll leaves
BOTH the deleted pair and the clear snapshot pending, and the two
following undo_delete calls both succeed. -/
theorem c1_counterexample :
    (delete_expense c1dm (pystr "Food") (Sum.inr c1rec)).2 = true ∧
    (clear_all (delete_expense c1dm (pystr "Food") (Sum.inr c1rec)).1).last_deleted ≠
      none ∧
    (clear_all (delete_expense c1dm (pystr "Food") (Sum.inr c1rec)).1).last_cleared ≠
      none ∧
    (undo_delete (clear_all (delete_expense c1dm (pystr "Food") (Sum.inr c1rec)).1)).2 =
      true ∧
    (undo_delete (undo_delete (clear_all
      (delete_expense c1dm (pystr "Food") (Sum.inr c1rec)).1)).1).2 = true := by
  refine ⟨?_, ?_, ?_, ?_, ?_⟩
  · with_unfolding_all rfl
  · intro h
    exact absurd (congrArg Option.isSome h) (by with_unfolding_all decide)
  · intro h
    exact absurd (congrArg Option.isSome h) (by with_unfolding_all decide)
  · with_unfolding_all rfl
  · with_unfolding_all rfl

/-- C1 amended — the store keeps two independent single-entry undo slots:
a delete that returns true fills last_deleted and leaves last_cleared
untouched; clear_all fills last_cleared and leaves last_deleted
untouched; a successful undo_delete or undo_clear empties exactly the
slot it consumed (undo_delete preferring the clear snapshot); a failed
delete or undo changes nothing. -/
theorem c1_undo_slots (dm : DM) (cat : PyStr) (r : Int ⊕ Rec) :
    ((delete_expense dm cat r).2 = true →
      (delete_expense dm cat r).1.last_cleared = dm.last_cleared ∧
      (delete_expense dm cat r).1.last_deleted.isSome ∧
      (delete_expense dm cat r).1.categories = dm.categories) ∧
    ((delete_expense dm cat r).2 = false → (delete_expense dm cat r).1 = dm) ∧
    ((clear_all dm).last_cleared = some dm.expenses ∧
      (clear_all dm).last_deleted = dm.last_deleted) ∧
    (dm.last_cleared.isSome →
      (undo_delete dm).2 = true ∧ (undo_delete dm).1.last_cleared = none ∧
      (undo_delete dm).1.last_deleted = dm.last_deleted) ∧
    (dm.last_cleared = none → dm.last_deleted.isSome →
      (undo_delete dm).2 = true ∧ (undo_delete dm).1.last_deleted = none ∧
      (undo_delete dm).1.last_cleared = none) ∧
    ((undo_clear dm).2 = true →
      (undo_clear dm).1.last_cleared = none ∧
      (undo_clear dm).1.last_deleted = dm.last_deleted) ∧
    ((undo_clear dm).2 = false → (undo_clear dm).1 = dm) := by
  refine ⟨?_, ?_, ?_, ?_, ?_, ?_, ?_⟩
  · simp only [delete_expense]
    cases halo : alookup (normalize_category_name cat) dm.expenses with
    | none => simp
    | some recs =>
      simp only
      cases r with
      | inl i =>
        by_cases hi : 0 ≤ i ∧ i < (recs.length : Int)
        · simp [hi]
        · simp [hi]
      | inr rr =>
        by_cases hin : rr ∈ recs
        · simp [hin]
        · simp only [hin, if_false, if_neg]
          cases hf : recs.find? (fieldMatch rr) with
          | none => simp [hin, hf]
          | some r' => simp [hin, hf]
  · simp only [delete_expense]
    cases halo : alookup (normalize_category_name cat) dm.expenses with
    | none => simp
    | some recs =>
      simp only
      cases r with
      | inl i =>
        by_cases hi : 0 ≤ i ∧ i < (recs.length : Int)
        · simp [hi]
        · simp [hi]
      | inr rr =>
        by_cases hin : rr ∈ recs
        · simp [hin]
        · simp only [hin, if_false, if_neg]
          cases hf : recs.find? (fieldMatch rr) with
          | none => simp [hin, hf]
          | some r' => simp [hin, hf]
  · exact ⟨rfl, rfl⟩
  · intro h
    obtain ⟨snap, hs⟩ := Option.isSome_iff_exists.mp h
    unfold undo_delete
    rw [hs]
    exact ⟨rfl, rfl, rfl⟩
  · intro h1 h2
    obtain ⟨⟨cat', rec'⟩, hs⟩ := Option.isSome_iff_exists.mp h2
    unfold undo_delete
    rw [h1, hs]
    exact ⟨rfl, rfl, rfl⟩
  · simp only [undo_clear]
    cases hc : dm.last_cleared with
    | none => simp
    | some snap =>
      by_cases hsnil : snap = []
      · simp [hsnil]
      · simp [hsnil]
  · simp only [undo_clear]
    cases hc : dm.last_cleared with
    | none => simp
    | some snap =>
      by_cases hsnil : snap = []
      · simp [hsnil]
      · simp [hsnil]

/-- Witness for C1 at the concrete scenario: a successful delete, the
clear, a failing delete on the emptied store, both undo paths and a
failing undo_clear. -/
theorem c1_undo_slots_witness :
    ((delete_expense c1dm (pystr "Food") (Sum.inr c1rec)).2 = true →
      (delete_expense c1dm (pystr "Food") (Sum.inr c1rec)).1.last_cleared =
        c1dm.last_cleared ∧
      (delete_expense c1dm (pystr "Food") (Sum.inr c1rec)).1.last_deleted.isSome ∧
      (delete_expense c1dm (pystr "Food") (Sum.inr c1rec)).1.categories =
        c1dm.categories) ∧
    ((clear_all c1dm).last_cleared.isSome →
      (undo_delete (clear_all c1dm)).2 = true ∧
      (undo_delete (clear_all c1dm)).1.last_cleared = none ∧
      (undo_delete (clear_all c1dm)).1.last_deleted = (clear_all c1dm).last_deleted) ∧
    (c1dm.last_cleared = none → c1dm.last_deleted.isSome →
      (undo_delete c1dm).2 = true ∧ (undo_delete c1dm).1.last_deleted = none ∧
      (undo_delete c1dm).1.last_cleared = none) ∧
    ((undo_clear c1dm).2 = false → (undo_clear c1dm).1 = c1dm) :=
  ⟨(c1_undo_slots c1dm (pystr "Food") (Sum.inr c1rec)).1,
   fun h => ((c1_undo_slots (clear_all c1dm) (pystr "Food") (Sum.inr c1rec)).2.2.2.1 h),
   (c1_undo_slots c1dm (pystr "Food") (Sum.inr c1rec)).2.2.2.2.1,
   fun h => ((c1_undo_slots c1dm (pystr "Food") (Sum.inr c1rec)).2.2.2.2.2.2 h)⟩

/-! ### C3: clear_all / undo_clear -/

/-- C3 counterexample — on an empty store, clearAll stores a falsy (empty)
snapshot, so undoClear returns false instead of the claimed true (the
mapping itself is trivially unchanged). -/
theorem c3_counterexample :
    (undo_clear (clear_all initialDM)).2 = false ∧
    (undo_clear (clear_all initialDM)).1.expenses = initialDM.expenses := by
  constructor
  · with_unfolding_all rfl
  · with_unfolding_all rfl

/-- C3 amended — on a store whose expense mapping is non-empty, clearAll
then undoClear restores exactly the pre-clear mapping and returns true,
and a second undoClear on the emptied slot returns false and changes
nothing; on an empty mapping the first undoClear already returns false
with the (trivially unchanged) empty mapping. -/
theorem c3_clear_undo (dm : DM) :
    (dm.expenses ≠ [] →
      (undo_clear (clear_all dm)).2 = true ∧
      (undo_clear (clear_all dm)).1.expenses = dm.expenses ∧
      (undo_clear (clear_all dm)).1.categories = dm.categories ∧
      (undo_clear (clear_all dm)).1.last_cleared = none ∧
      (undo_clear ((undo_clear (clear_all dm)).1)).2 = false ∧
      (undo_clear ((undo_clear (clear_all dm)).1)).1 = (undo_clear (clear_all dm)).1) ∧
    (dm.expenses = [] →
      (undo_clear (clear_all dm)).2 = false ∧
      (undo_clear (clear_all dm)).1.expenses = dm.expenses) := by
  constructor
  · intro h
    simp only [clear_all, undo_clear]
    simp [h]
  · intro h
    simp only [clear_all, undo_clear]
    simp [h]

/-- Concrete record for the C3 witness. -/
def c3rec : Rec :=
  { id := some 1, amount := some 3, date := some (pystr "2024-03-03"),
    description := some (pystr "Tea") }

/-- Concrete non-empty store for the C3 witness. -/
def c3dm : DM :=
  { expenses := [(pystr "Food", [c3rec])], categories := defaultCategories,
    last_deleted := none, last_cleared := none }

/-- Witness for C3: the non-empty branch at a one-record store and the
empty branch at the initial store. -/
theorem c3_clear_undo_witness :
    ((undo_clear (clear_all c3dm)).2 = true ∧
      (undo_clear (clear_all c3dm)).1.expenses = c3dm.expenses ∧
      (undo_clear (clear_all c3dm)).1.categories = c3dm.categories ∧
      (undo_clear (clear_all c3dm)).1.last_cleared = none ∧
      (undo_clear ((undo_clear (clear_all c3dm)).1)).2 = false ∧
      (undo_clear ((undo_clear (clear_all c3dm)).1)).1 =
        (undo_clear (clear_all c3dm)).1) ∧
    ((undo_clear (clear_all initialDM)).2 = false ∧
      (undo_clear (clear_all initialDM)).1.expenses = initialDM.expenses) :=
  ⟨(c3_clear_undo c3dm).1 (by with_unfolding_all decide),
   (c3_clear_undo initialDM).2 (by with_unfolding_all decide)⟩

/-! ### C6: add_expense id generation -/

/-- Pre-existing record with id 1 for the C6 failing input. -/
def c6rec : Rec :=
  { id := some 1, amount := some 10, date := some (pystr "2023-01-01"),
    description := some (pystr "Lunch") }

/-- Store already holding a record with id 1. -/
def c6dm : DM :=
  { expenses := [(pystr "Food", [c6rec])], categories := defaultCategories,
    last_deleted := none, last_cleared := none }

/-- C6 — evaluation of add_expense at the failing input: with a record of
id 1 already present, the new record again receives id 1 (because
list_all_expenses emits dicts without an "id" key, the maximum of
e.get("id", 0) is always 0), duplicating the existing id, and the call
returns True rather than the id. -/
theorem c6_add_expense_id_bug :
    add_expense c6dm (pystr "Food") 5 (pystr "2023-01-02") (pystr "Coffee") =
      some ({ c6dm with expenses := [(pystr "Food", [c6rec,
        { id := some 1, amount := some 5, date := some (pystr "2023-01-02"),
          description := some (pystr "Coffee") }])] }, true) ∧
    c6rec.id = some 1 := by
  constructor
  · with_unfolding_all rfl
  · rfl

/-! ### C9: id assignment in load_expense -/

/-- The sequential ids n, n+1, ..., n+k-1. -/
def seqIds : Int → Nat → List Int
  | _, 0 => []
  | n, k + 1 => n :: seqIds (n + 1) k

theorem seqIds_append (n : Int) (a b : Nat) :
    seqIds n (a + b) = seqIds n a ++ seqIds (n + a) b := by
  induction a generalizing n with
  | zero => simp [seqIds]
  | succ a ih =>
    have h1 : a + 1 + b = (a + b) + 1 := by omega
    rw [h1]
    show n :: seqIds (n + 1) (a + b) =
      (n :: seqIds (n + 1) a) ++ seqIds (n + ((a + 1 : Nat) : Int)) b
    rw [List.cons_append, ih (n + 1)]
    have h2 : n + 1 + (a : Int) = n + ((a + 1 : Nat) : Int) := by push_cast; ring
    rw [h2]

theorem mem_seqIds {x n : Int} {k : Nat} (h : x ∈ seqIds n k) :
    n ≤ x ∧ x < n + k := by
  induction k generalizing n with
  | zero => simp [seqIds] at h
  | succ k ih =>
    simp only [seqIds, List.mem_cons] at h
    rcases h with rfl | h
    · constructor
      · exact le_refl x
      · push_cast; omega
    · have := ih h
      push_cast at this ⊢
      omega

theorem seqIds_nodup (n : Int) (k : Nat) : (seqIds n k).Nodup := by
  induction k generalizing n with
  | zero => simp [seqIds]
  | succ k ih =>
    simp only [seqIds, List.nodup_cons]
    refine ⟨?_, ih (n + 1)⟩
    intro hmem
    have := mem_seqIds hmem
    omega

theorem assignIdsRecs_isSome (n : Int) (rs : List Rec) :
    ∀ r' ∈ (assignIdsRecs n rs).1, r'.id.isSome := by
  induction rs generalizing n with
  | nil => simp [assignIdsRecs]
  | cons r rs ih =>
    by_cases h : r.id = none
    · simp only [assignIdsRecs, h, if_pos]
      intro r' hr'
      rcases List.mem_cons.mp hr' with rfl | hmem
      · rfl
      · exact ih (n + 1) r' hmem
    · simp only [assignIdsRecs, h, if_neg, if_false]
      intro r' hr'
      rcases List.mem_cons.mp hr' with rfl | hmem
      · exact Option.isSome_iff_ne_none.mpr h
      · exact ih n r' hmem

theorem assignIdsRecs_count (n : Int) (rs : List Rec) :
    (assignIdsRecs n rs).2 = n + recsNoneCount rs := by
  induction rs generalizing n with
  | nil => simp [assignIdsRecs, recsNoneCount]
  | cons r rs ih =>
    by_cases h : r.id = none
    · simp only [assignIdsRecs, h, if_pos, recsNoneCount, List.filter_cons,
        decide_eq_true_eq, if_true, List.length_cons]
      rw [ih (n + 1)]
      unfold recsNoneCount
      push_cast
      ring
    · simp only [assignIdsRecs, h, if_neg, if_false, recsNoneCount, List.filter_cons]
      rw [ih n]
      unfold recsNoneCount
      simp [h]

theorem assignIdsRecs_ids (n : Int) (rs : List Rec) :
    List.Perm (recsIds (assignIdsRecs n rs).1)
      (recsIds rs ++ seqIds n (recsNoneCount rs)) := by
  induction rs generalizing n with
  | nil => simp [assignIdsRecs, recsIds, recsNoneCount, seqIds]
  | cons r rs ih =>
    by_cases h : r.id = none
    · have hcnt : recsNoneCount (r :: rs) = recsNoneCount rs + 1 := by
        unfold recsNoneCount
        simp [h]
      have hids : recsIds (r :: rs) = recsIds rs := by
        unfold recsIds
        simp [List.filterMap_cons, h]
      simp only [assignIdsRecs, h, if_pos, hcnt, hids]
      have hout : recsIds ({ r with id := some n } :: (assignIdsRecs (n + 1) rs).1) =
          n :: recsIds (assignIdsRecs (n + 1) rs).1 := by
        unfold recsIds
        simp [List.filterMap_cons]
      rw [hout]
      have hseq : seqIds n (recsNoneCount rs + 1) = n :: seqIds (n + 1) (recsNoneCount rs) := rfl
      rw [hseq]
      exact ((ih (n + 1)).cons n).trans List.perm_middle.symm
    · obtain ⟨v, hv⟩ := Option.ne_none_iff_exists'.mp h
      have hids : recsIds (r :: rs) = v :: recsIds rs := by
        unfold recsIds
        simp [List.filterMap_cons, hv]
      simp only [assignIdsRecs, h, if_neg, if_false]
      have hcnt : recsNoneCount (r :: rs) = recsNoneCount rs := by
        unfold recsNoneCount
        simp [h]
      have hout : recsIds (r :: (assignIdsRecs n rs).1) =
          v :: recsIds (assignIdsRecs n rs).1 := by
        unfold recsIds
        simp [List.filterMap_cons, hv]
      rw [hout, hids, hcnt, List.cons_append]
      exact (ih n).cons v

theorem assignIdsStore_count (n : Int) (es : Store) :
    (assignIdsStore n es).2 = n + storeNoneCount es := by
  induction es generalizing n with
  | nil => simp [assignIdsStore, storeNoneCount]
  | cons p rest ih =>
    obtain ⟨c, rs⟩ := p
    simp only [assignIdsStore]
    rw [ih, assignIdsRecs_count]
    unfold storeNoneCount
    simp only [List.map_cons, List.sum_cons]
    push_cast
    ring

theorem assignIdsStore_isSome (n : Int) (es : Store) :
    ∀ p ∈ (assignIdsStore n es).1, ∀ r ∈ p.2, r.id.isSome := by
  induction es generalizing n with
  | nil => simp [assignIdsStore]
  | cons q rest ih =>
    obtain ⟨c, rs⟩ := q
    simp only [assignIdsStore]
    intro p hp
    rcases List.mem_cons.mp hp with rfl | hmem
    · exact assignIdsRecs_isSome n rs
    · exact ih _ p hmem

theorem assignIdsStore_ids (n : Int) (es : Store) :
    List.Perm (storeIds (assignIdsStore n es).1)
      (storeIds es ++ seqIds n (storeNoneCount es)) := by
  induction es generalizing n with
  | nil => simp [assignIdsStore, storeIds, storeNoneCount, seqIds]
  | cons q rest ih =>
    obtain ⟨c, rs⟩ := q
    have hsplit : storeNoneCount ((c, rs) :: rest) =
        recsNoneCount rs + storeNoneCount rest := by
      unfold storeNoneCount
      simp
    simp only [assignIdsStore, storeIds, List.flatMap_cons, hsplit]
    have h1 := assignIdsRecs_ids n rs
    have h2 := ih (n := (assignIdsRecs n rs).2)
    rw [assignIdsRecs_count] at h2
    have hseq : seqIds n (recsNoneCount rs + storeNoneCount rest) =
        seqIds n (recsNoneCount rs) ++
          seqIds (n + recsNoneCount rs) (storeNoneCount rest) :=
      seqIds_append n _ _
    rw [hseq, assignIdsRecs_count n rs]
    simp only [storeIds] at h2
    refine (List.Perm.append h1 h2).trans ?_
    rw [List.append_assoc, List.append_assoc]
    refine List.Perm.append_left _ ?_
    exact List.perm_append_comm_assoc _ _ _

/-- Record that already carries id 1, for the C9 counterexample. -/
def c9rec1 : Rec := { id := some 1, amount := some 1, date := none, description := none }

/-- Record lacking an id, for the C9 counterexample. -/
def c9rec0 : Rec := { id := none, amount := some 2, date := none, description := none }

/-- C9 counterexample — loading a snapshot holding a record with id 1 and
a record without an id assigns the fresh sequential id 1 to the latter,
so the store ends with the duplicate id list [1, 1]: ids are not unique
after load. -/
theorem c9_counterexample :
    storeIds (loadAssignIds [(pystr "Food", [c9rec1, c9rec0])]) = [1, 1] ∧
    ¬ (storeIds (loadAssignIds [(pystr "Food", [c9rec1, c9rec0])])).Nodup := by
  constructor
  · with_unfolding_all rfl
  · intro h
    rw [(by with_unfolding_all rfl :
      storeIds (loadAssignIds [(pystr "Food", [c9rec1, c9rec0])]) = [1, 1])] at h
    simp at h

/-- C9 amended — after the load pass every record has an id, and the ids
assigned to the records that lacked one are the sequential, pairwise
distinct values 1, 2, ...; they can however duplicate ids that were
already present (the pass never inspects existing ids), so the whole
store's ids are only a permutation of the old ids plus that fresh run. -/
theorem c9_load_ids (es : Store) :
    (∀ p ∈ loadAssignIds es, ∀ r ∈ p.2, r.id.isSome) ∧
    List.Perm (storeIds (loadAssignIds es))
      (storeIds es ++ seqIds 1 (storeNoneCount es)) ∧
    (seqIds 1 (storeNoneCount es)).Nodup :=
  ⟨assignIdsStore_isSome 1 es, assignIdsStore_ids 1 es,
    seqIds_nodup 1 (storeNoneCount es)⟩

/-- Witness for C9 at the concrete two-record snapshot: both records end
up with an id, and the id multiset is {1} plus the fresh run [1]. -/
theorem c9_load_ids_witness :
    ((pystr "Food", [c9rec1, { c9rec0 with id := some 1 }]) ∈
        loadAssignIds [(pystr "Food", [c9rec1, c9rec0])] →
      { c9rec0 with id := some 1 } ∈ [c9rec1, { c9rec0 with id := some 1 }] →
      ({ c9rec0 with id := some 1 } : Rec).id.isSome) ∧
    List.Perm (storeIds (loadAssignIds [(pystr "Food", [c9rec1, c9rec0])]))
      (storeIds [(pystr "Food", [c9rec1, c9rec0])] ++
        seqIds 1 (storeNoneCount [(pystr "Food", [c9rec1, c9rec0])])) :=
  ⟨fun hp hr => (c9_load_ids [(pystr "Food", [c9rec1, c9rec0])]).1 _ hp _ hr,
   (c9_load_ids [(pystr "Food", [c9rec1, c9rec0])]).2.1⟩

/-! ### C4: budget alert thresholds -/

theorem check_budget_alerts_eq (bm : BM) (dm : DM) (month : PyStr) :
    check_budget_alerts bm dm month = bm.budgets.filterMap (alertFor dm month) := by
  by_cases h : bm.budgets = []
  · simp [check_budget_alerts, h]
  · simp [check_budget_alerts, h]

theorem alertFor_tag {dm : DM} {month : PyStr} {p : PyStr × Rat} {a : Alert}
    (h : alertFor dm month p = some a) (cat : PyStr) :
    (a.isCriticalFor cat || a.isWarningFor cat) = (p.1 == cat) := by
  simp only [alertFor] at h
  split at h
  · cases h
    simp [Alert.isCriticalFor, Alert.isWarningFor]
  · split at h
    · cases h
      simp [Alert.isCriticalFor, Alert.isWarningFor]
    · cases h

theorem filter_alerts_not_mem (dm : DM) (month cat : PyStr)
    (l : List (PyStr × Rat)) (h : cat ∉ l.map Prod.fst) :
    (l.filterMap (alertFor dm month)).filter
      (fun a => a.isCriticalFor cat || a.isWarningFor cat) = [] := by
  induction l with
  | nil => rfl
  | cons p rest ih =>
    have hp : p.1 ≠ cat := by
      intro hh
      exact h (by simp [hh.symm])
    have hrest : cat ∉ rest.map Prod.fst := by
      intro hh
      exact h (by simp [hh])
    rw [List.filterMap_cons]
    cases ha : alertFor dm month p with
    | none => exact ih hrest
    | some a =>
      rw [List.filter_cons]
      rw [alertFor_tag ha cat]
      simp only [beq_iff_eq]
      rw [if_neg (by simpa using hp)]
      exact ih hrest

theorem filter_alerts_eq (dm : DM) (month cat : PyStr) (limit : Rat)
    (l : List (PyStr × Rat)) (hnd : (l.map Prod.fst).Nodup)
    (hmem : (cat, limit) ∈ l) :
    (l.filterMap (alertFor dm month)).filter
        (fun a => a.isCriticalFor cat || a.isWarningFor cat) =
      (alertFor dm month (cat, limit)).toList := by
  induction l with
  | nil => simp at hmem
  | cons p rest ih =>
    simp only [List.map_cons, List.nodup_cons] at hnd
    rcases List.mem_cons.mp hmem with heq | hmem'
    · have hnotin : cat ∉ rest.map Prod.fst := by
        rw [← heq] at hnd
        exact hnd.1
      rw [List.filterMap_cons, ← heq]
      cases ha : alertFor dm month (cat, limit) with
      | none =>
        simp only [Option.toList]
        exact filter_alerts_not_mem dm month cat rest hnotin
      | some a =>
        rw [List.filter_cons, alertFor_tag ha cat]
        simp only [beq_self_eq_true, if_true, if_pos]
        rw [filter_alerts_not_mem dm month cat rest hnotin]
        rfl
    · have hp : p.1 ≠ cat := by
        intro hh
        exact hnd.1 (hh ▸ List.mem_map_of_mem Prod.fst hmem')
      rw [List.filterMap_cons]
      cases ha : alertFor dm month p with
      | none => exact ih hnd.2 hmem'
      | some a =>
        rw [List.filter_cons, alertFor_tag ha cat]
        simp only [beq_iff_eq]
        rw [if_neg (by simpa using hp)]
        exact ih hnd.2 hmem'

/-- C4 amended — for a budgeted category with non-negative limit L and
current-month spend S, checkBudgetAlerts emits exactly one critical
alert carrying the overspend S − L when S > L, exactly one warning
when S lies in the half-open interval (0.8·L, 1.0·L], and no alert for
that category when S ≤ 0.8·L (the boundary S = 0.8·L yields no alert,
not a warning). Budget keys are dict keys, hence pairwise distinct. -/
theorem c4_alert_thresholds (bm : BM) (dm : DM) (month : PyStr)
    (hkeys : (bm.budgets.map Prod.fst).Nodup) (cat : PyStr) (limit : Rat)
    (hmem : (cat, limit) ∈ bm.budgets) (hlim : 0 ≤ limit) :
    (limit < monthly_spending dm cat month →
      (check_budget_alerts bm dm month).filter
          (fun a => a.isCriticalFor cat || a.isWarningFor cat) =
        [Alert.critical cat (monthly_spending dm cat month) limit
          (monthly_spending dm cat month - limit)]) ∧
    (limit * (4 / 5 : Rat) < monthly_spending dm cat month →
      monthly_spending dm cat month ≤ limit →
      (check_budget_alerts bm dm month).filter
          (fun a => a.isCriticalFor cat || a.isWarningFor cat) =
        [Alert.warning cat (monthly_spending dm cat month) limit]) ∧
    (monthly_spending dm cat month ≤ limit * (4 / 5 : Rat) →
      (check_budget_alerts bm dm month).filter
          (fun a => a.isCriticalFor cat || a.isWarningFor cat) = []) := by
  have hbase : (check_budget_alerts bm dm month).filter
      (fun a => a.isCriticalFor cat || a.isWarningFor cat) =
      (alertFor dm month (cat, limit)).toList := by
    rw [check_budget_alerts_eq]
    exact filter_alerts_eq dm month cat limit bm.budgets hkeys hmem
  refine ⟨?_, ?_, ?_⟩
  · intro hS
    rw [hbase]
    simp only [alertFor]
    rw [if_pos hS]
    rfl
  · intro hS hSle
    rw [hbase]
    simp only [alertFor]
    rw [if_neg (by exact not_lt.mpr hSle), if_pos hS]
    rfl
  · intro hS
    rw [hbase]
    simp only [alertFor]
    have hle : monthly_spending dm cat month ≤ limit := by
      calc monthly_spending dm cat month ≤ limit * (4 / 5 : Rat) := hS
        _ ≤ limit := by nlinarith
    rw [if_neg (not_lt.mpr hle), if_neg (not_lt.mpr hS)]
    rfl

/-- A store whose "Food" spend in 2025-10 is the given concrete list. -/
def c4store (amt : Rat) : DM :=
  { expenses := [(pystr "Food",
      [{ id := some 1, amount := some amt, date := some (pystr "2025-10-05"),
         description := some (pystr "x") }])],
    categories := defaultCategories, last_deleted := none, last_cleared := none }

/-- The budget dict after setBudget("Food", 500). -/
def c4bm : BM := { budgets := [(pystr "Food", 500)] }

/-- C4 counterexample — with limit 500 and a current-month spend of
exactly 400 = 0.8 × 500, the claim's closed warning interval
[0.8·L, 1.0·L] demands exactly one warning, but the code's strict
comparison produces no alert at all. -/
theorem c4_counterexample :
    monthly_spending (c4store 400) (pystr "Food") (pystr "2025-10") = 400 ∧
    (4 / 5 : Rat) * 500 ≤ 400 ∧ (400 : Rat) ≤ 500 ∧
    check_budget_alerts c4bm (c4store 400) (pystr "2025-10") = [] := by
  refine ⟨?_, ?_, ?_, ?_⟩
  · with_unfolding_all rfl
  · norm_num
  · norm_num
  · with_unfolding_all rfl

/-- Witness for C4 at the spec's concrete scenario: setBudget("Food",
500), then a 600 spend yields exactly one critical alert citing
overspend 100, 450 exactly one warning, 300 no alert. -/
theorem c4_alert_thresholds_witness :
    set_budget { budgets := [] } (c4store 600) (pystr "Food") 500 = (c4bm, true) ∧
    (check_budget_alerts c4bm (c4store 600) (pystr "2025-10")).filter
        (fun a => a.isCriticalFor (pystr "Food") || a.isWarningFor (pystr "Food")) =
      [Alert.critical (pystr "Food") 600 500 100] ∧
    (check_budget_alerts c4bm (c4store 450) (pystr "2025-10")).filter
        (fun a => a.isCriticalFor (pystr "Food") || a.isWarningFor (pystr "Food")) =
      [Alert.warning (pystr "Food") 450 500] ∧
    (check_budget_alerts c4bm (c4store 300) (pystr "2025-10")).filter
        (fun a => a.isCriticalFor (pystr "Food") || a.isWarningFor (pystr "Food")) =
      [] := by
  refine ⟨by with_unfolding_all rfl, ?_, ?_, ?_⟩
  · have hs : monthly_spending (c4store 600) (pystr "Food") (pystr "2025-10") = 600 := by
      with_unfolding_all rfl
    have h := (c4_alert_thresholds c4bm (c4store 600) (pystr "2025-10")
      (by simp [c4bm]) (pystr "Food") 500 (by simp [c4bm]) (by norm_num)).1
      (by rw [hs]; norm_num)
    rw [hs] at h
    rw [h]
    norm_num
  · have hs : monthly_spending (c4store 450) (pystr "Food") (pystr "2025-10") = 450 := by
      with_unfolding_all rfl
    have h := (c4_alert_thresholds c4bm (c4store 450) (pystr "2025-10")
      (by simp [c4bm]) (pystr "Food") 500 (by simp [c4bm]) (by norm_num)).2.1
      (by rw [hs]; norm_num) (by rw [hs]; norm_num)
    rw [hs] at h
    exact h
  · have hs : monthly_spending (c4store 300) (pystr "Food") (pystr "2025-10") = 300 := by
      with_unfolding_all rfl
    exact (c4_alert_thresholds c4bm (c4store 300) (pystr "2025-10")
      (by simp [c4bm]) (pystr "Food") 500 (by simp [c4bm]) (by norm_num)).2.2
      (by rw [hs]; norm_num)

/-! ### C8: per-category date sorting -/

theorem digitsVal_aux (s : PyStr) (h : ∀ c ∈ s, isDigit c = true) :
    ∀ a : Nat, s.foldl (fun a c => a * 10 + (c - 48)) a < (a + 1) * 10 ^ s.length := by
  induction s with
  | nil =>
    intro a
    simp
  | cons c cs ih =>
    intro a
    have hc : c - 48 ≤ 9 := by
      have := h c (by simp)
      simp [isDigit] at this
      omega
    have hrec := ih (fun d hd => h d (by simp [hd])) (a * 10 + (c - 48))
    simp only [List.foldl_cons, List.length_cons]
    calc cs.foldl (fun a c => a * 10 + (c - 48)) (a * 10 + (c - 48)) <
        (a * 10 + (c - 48) + 1) * 10 ^ cs.length := hrec
      _ ≤ ((a + 1) * 10) * 10 ^ cs.length := by
          have hle : a * 10 + (c - 48) + 1 ≤ (a + 1) * 10 := by omega
          exact Nat.mul_le_mul_right _ hle
      _ = (a + 1) * 10 ^ (cs.length + 1) := by ring

theorem digitsVal_lt (s : PyStr) (h : ∀ c ∈ s, isDigit c = true) :
    digitsVal s < 10 ^ s.length := by
  have := digitsVal_aux s h 0
  simpa [digitsVal] using this

theorem parseDate_bounds {s : PyStr} {y m d : Nat}
    (h : parseDate s = some (y, m, d)) : y ≤ 9999 ∧ m ≤ 12 ∧ d ≤ 31 := by
  simp only [parseDate] at h
  split at h
  · exact absurd h (by simp)
  · rename_i hylen
    split at h
    · rename_i r2 heq
      split at h
      · exact absurd h (by simp)
      · rename_i hmok
        split at h
        · rename_i ds heq2
          split at h
          · rename_i hdok
            split at h
            · rename_i hyd
              injection h with h'
              obtain ⟨rfl, rfl, rfl⟩ : digitsVal (s.takeWhile isDigit) = y ∧
                  digitsVal (r2.takeWhile isDigit) = m ∧ digitsVal ds = d := by
                have h1 := congrArg Prod.fst h'
                have h2 := congrArg (fun t => t.2.1) h'
                have h3 := congrArg (fun t => t.2.2) h'
                exact ⟨h1, h2, h3⟩
              push_neg at hylen hmok
              refine ⟨?_, ?_, ?_⟩
              · have hall : ∀ c ∈ s.takeWhile isDigit, isDigit c = true :=
                  fun c hc => List.mem_takeWhile_imp hc
                have := digitsVal_lt (s.takeWhile isDigit) hall
                rw [hylen] at this
                omega
              · exact hmok.2.2
              · exact hdok.2.2.2
            · exact absurd h (by simp)
          · exact absurd h (by simp)
        · exact absurd h (by simp)
    · exact absurd h (by simp)

/-- A record whose date key is the datetime.max sentinel: the date is
missing or empty. -/
def missingDate (r : Rec) : Prop := r.date = none ∨ r.date = some []

theorem recDateKey_missing {r : Rec} (h : missingDate r) :
    recDateKey r = some 99991232 := by
  unfold recDateKey
  rcases h with h | h
  · rw [h]
  · rw [h]
    simp

theorem recDateKey_parsed {r : Rec} (hnm : ¬ missingDate r)
    (hs : (recDateKey r).isSome) :
    ∃ k, recDateKey r = some k ∧ k ≤ 99991231 := by
  unfold missingDate at hnm
  push_neg at hnm
  obtain ⟨hne, hnil⟩ := hnm
  obtain ⟨ds, hds⟩ := Option.ne_none_iff_exists'.mp hne
  have hdsne : ¬ ds = [] := by
    intro hh
    exact hnil (by rw [hds, hh])
  simp only [recDateKey, hds] at hs ⊢
  rw [if_neg hdsne] at hs ⊢
  cases hp : parseDate ds with
  | none => rw [hp] at hs; simp at hs
  | some t =>
    obtain ⟨y, m, d⟩ := t
    have hb := parseDate_bounds hp
    refine ⟨y * 10000 + m * 100 + d, by simp, ?_⟩
    omega

theorem sortRecsByDate_perm (recs : List Rec) :
    List.Perm (sortRecsByDate recs) recs := by
  unfold sortRecsByDate
  by_cases h : recs.all (fun r => (recDateKey r).isSome)
  · rw [if_pos h]
    exact sortByB_perm _ recs
  · rw [if_neg h]

theorem sortRecsByDate_chain (recs : List Rec)
    (h : ∀ r ∈ recs, (recDateKey r).isSome) :
    List.Chain' (fun a b => (recDateKey a).getD 0 ≤ (recDateKey b).getD 0)
      (sortRecsByDate recs) := by
  unfold sortRecsByDate
  rw [if_pos (by simpa [List.all_eq_true] using h)]
  have := sortByB_chain
    (fun a b : Rec => decide ((recDateKey a).getD 0 ≤ (recDateKey b).getD 0))
    (fun a b => by
      rcases Nat.le_total ((recDateKey a).getD 0) ((recDateKey b).getD 0) with hle | hle
      · exact Or.inl (by simpa using hle)
      · exact Or.inr (by simpa using hle)) recs
  exact this.imp (fun a b hab => of_decide_eq_true hab)

theorem sortRecsByDate_unchanged (recs : List Rec)
    (h : ∃ r ∈ recs, recDateKey r = none) : sortRecsByDate recs = recs := by
  unfold sortRecsByDate
  rw [if_neg]
  intro hall
  obtain ⟨r, hr, hnone⟩ := h
  have := List.all_eq_true.mp hall r hr
  rw [hnone] at this
  simp at this

theorem sortRecsByDate_missing_last (recs : List Rec)
    (hgood : ∀ r ∈ recs, (recDateKey r).isSome) :
    List.Pairwise (fun a b => ¬ (missingDate a ∧ ¬ missingDate b))
      (sortRecsByDate recs) := by
  haveI : IsTrans Rec (fun a b => (recDateKey a).getD 0 ≤ (recDateKey b).getD 0) :=
    ⟨fun a b c hab hbc => le_trans hab hbc⟩
  have hchain := sortRecsByDate_chain recs hgood
  have hpw := List.chain'_iff_pairwise.mp hchain
  refine List.Pairwise.imp_of_mem ?_ hpw
  intro a b ha hb hle
  rintro ⟨hma, hmb⟩
  have hga : a ∈ recs := (sortRecsByDate_perm recs).subset ha
  have hgb : b ∈ recs := (sortRecsByDate_perm recs).subset hb
  have hka := recDateKey_missing hma
  obtain ⟨k, hk, hkb⟩ := recDateKey_parsed hmb (hgood b hgb)
  rw [hka, hk] at hle
  simp only [Option.getD_some] at hle
  omega

/-- C8 amended — get_sorted_expenses keeps the categories (and their
order); per category the output is a permutation of the input records;
when every record's date is missing, empty or parsable, the records are
in ascending date-key order with the missing-dated ones after every
parsable-dated one; but when some record carries a non-empty unparsable
date, the ValueError from the sort key sends the whole category through
the except branch and the records come back in their original order,
not with unparsable dates last. -/
theorem c8_sorted_expenses (dm : DM) :
    (get_sorted_expenses dm).map Prod.fst = dm.expenses.map Prod.fst ∧
    List.Forall₂ (fun p q =>
      List.Perm q.2 p.2 ∧
      ((∀ r ∈ p.2, (recDateKey r).isSome) →
        List.Chain' (fun a b => (recDateKey a).getD 0 ≤ (recDateKey b).getD 0) q.2 ∧
        List.Pairwise (fun a b => ¬ (missingDate a ∧ ¬ missingDate b)) q.2) ∧
      ((∃ r ∈ p.2, recDateKey r = none) → q.2 = p.2))
      dm.expenses (get_sorted_expenses dm) := by
  constructor
  · unfold get_sorted_expenses
    rw [List.map_map]
    rfl
  · unfold get_sorted_expenses
    induction dm.expenses with
    | nil => exact List.Forall₂.nil
    | cons p rest ih =>
      refine List.Forall₂.cons ?_ ih
      refine ⟨sortRecsByDate_perm p.2, ?_, sortRecsByDate_unchanged p.2⟩
      intro hgood
      exact ⟨sortRecsByDate_chain p.2 hgood, sortRecsByDate_missing_last p.2 hgood⟩

/-- Record with a parsable date, for the C8 counterexample. -/
def c8good : Rec :=
  { id := none, amount := some 1, date := some (pystr "2023-01-01"),
    description := some (pystr "good") }

/-- Record with a non-empty unparsable date, for the C8 counterexample. -/
def c8bad : Rec :=
  { id := none, amount := some 1, date := some (pystr "nope"),
    description := some (pystr "bad") }

/-- Store putting the unparsable-dated record before the parsable one. -/
def c8dm : DM :=
  { expenses := [(pystr "Food", [c8bad, c8good])], categories := defaultCategories,
    last_deleted := none, last_cleared := none }

/-- C8 counterexample — "nope" does not parse while "2023-01-01" does,
yet get_sorted_expenses returns the category unchanged, leaving the
unparsable-dated record BEFORE the parsable-dated one instead of after
all parsable-dated records as the claim requires. -/
theorem c8_counterexample :
    parseDate (pystr "nope") = none ∧
    parseDate (pystr "2023-01-01") = some (2023, 1, 1) ∧
    get_sorted_expenses c8dm = [(pystr "Food", [c8bad, c8good])] ∧
    (c8bad.date = some (pystr "nope") ∧ c8good.date = some (pystr "2023-01-01")) := by
  refine ⟨by decide, by decide, ?_, by decide⟩
  with_unfolding_all rfl

/-- Witness for C8: the theorem applied to a concrete two-record store
whose dates are parsable / missing, and to the unparsable store. -/
theorem c8_sorted_expenses_witness :
    ((get_sorted_expenses c8dm).map Prod.fst = c8dm.expenses.map Prod.fst ∧
      List.Forall₂ (fun p q =>
        List.Perm q.2 p.2 ∧
        ((∀ r ∈ p.2, (recDateKey r).isSome) →
          List.Chain' (fun a b => (recDateKey a).getD 0 ≤ (recDateKey b).getD 0) q.2 ∧
          List.Pairwise (fun a b => ¬ (missingDate a ∧ ¬ missingDate b)) q.2) ∧
        ((∃ r ∈ p.2, recDateKey r = none) → q.2 = p.2))
        c8dm.expenses (get_sorted_expenses c8dm)) :=
  c8_sorted_expenses c8dm

/-! ### C2: delete then undo -/

/-- A successful record-based delete found some record r₀ (the argument
itself or the first field-match) in the normalized category, erased its
first occurrence and parked (category, r₀) in the delete slot. -/
theorem delete_expense_record_success {dm : DM} {cat : PyStr} {r : Rec}
    (h : (delete_expense dm cat (Sum.inr r)).2 = true) :
    ∃ recs r₀, alookup (normalize_category_name cat) dm.expenses = some recs ∧
      r₀ ∈ recs ∧
      (delete_expense dm cat (Sum.inr r)).1 =
        { dm with
            expenses := aupdate (normalize_category_name cat)
              (fun rs => rs.erase r₀) dm.expenses
            last_deleted := some (normalize_category_name cat, r₀) } := by
  simp only [delete_expense] at h
  cases halo : alookup (normalize_category_name cat) dm.expenses with
  | none =>
    rw [halo] at h
    simp at h
  | some recs =>
    rw [halo] at h
    by_cases hin : r ∈ recs
    · refine ⟨recs, r, rfl, hin, ?_⟩
      simp only [delete_expense, halo, hin]
      simp
    · cases hf : recs.find? (fieldMatch r) with
      | none =>
        exfalso
        simp [hin, hf] at h
      | some r' =>
        refine ⟨recs, r', rfl, List.mem_of_find?_eq_some hf, ?_⟩
        simp only [delete_expense, halo]
        simp [hin, hf]

/-- C2 amended — with no clear snapshot pending, a deleteExpense(category,
record) that returns true followed by undoDelete() returns true,
leaves the registry and the category keys (in order) unchanged, empties
both undo slots, and restores each category to a permutation of its
pre-delete records: the deleted record is re-appended at the end of its
normalized category's list rather than at its original position. -/
theorem c2_delete_then_undo (dm : DM) (cat : PyStr) (r : Rec)
    (hclear : dm.last_cleared = none)
    (hdel : (delete_expense dm cat (Sum.inr r)).2 = true) :
    (undo_delete (delete_expense dm cat (Sum.inr r)).1).2 = true ∧
    (undo_delete (delete_expense dm cat (Sum.inr r)).1).1.categories =
      dm.categories ∧
    (undo_delete (delete_expense dm cat (Sum.inr r)).1).1.last_deleted = none ∧
    (undo_delete (delete_expense dm cat (Sum.inr r)).1).1.last_cleared = none ∧
    (undo_delete (delete_expense dm cat (Sum.inr r)).1).1.expenses.map Prod.fst =
      dm.expenses.map Prod.fst ∧
    ∀ k, List.Perm
      ((alookup k
        (undo_delete (delete_expense dm cat (Sum.inr r)).1).1.expenses).getD [])
      ((alookup k dm.expenses).getD []) := by
  obtain ⟨recs, r₀, halo, hmem, heq⟩ := delete_expense_record_success hdel
  rw [heq]
  simp only [undo_delete, hclear]
  have hmem_nc : amem (normalize_category_name cat)
      (aupdate (normalize_category_name cat) (fun rs => rs.erase r₀) dm.expenses) =
        true := by
    unfold amem
    rw [alookup_aupdate_self, halo]
    rfl
  refine ⟨trivial, trivial, trivial, trivial, ?_, ?_⟩
  · rw [setdefaultAppend_keys_of_mem _ _ _ hmem_nc, aupdate_keys]
  · intro k
    by_cases hk : k = normalize_category_name cat
    · subst hk
      rw [alookup_setdefaultAppend_self, alookup_aupdate_self, halo]
      simp only [Option.map_some, Option.getD_some]
      exact (List.perm_append_singleton r₀ (recs.erase r₀)).trans
        (List.perm_cons_erase hmem).symm
    · rw [alookup_setdefaultAppend_ne _ _ hk, alookup_aupdate_ne _ _ hk]

/-- First record of the C2 stores. -/
def c2recA : Rec :=
  { id := some 1, amount := some 1, date := some (pystr "2023-01-01"),
    description := some (pystr "a") }

/-- Second record of the C2 stores. -/
def c2recB : Rec :=
  { id := some 2, amount := some 2, date := some (pystr "2023-01-02"),
    description := some (pystr "b") }

/-- Two-record store used to exhibit the order change. -/
def c2dm : DM :=
  { expenses := [(pystr "Food", [c2recA, c2recB])], categories := defaultCategories,
    last_deleted := none, last_cleared := none }

/-- C2 counterexample — deleting the FIRST of two records and undoing
re-appends it at the END: both calls return true but the category's
record order becomes [B, A] instead of the pre-delete [A, B], so the
store is not restored to exactly its pre-delete state. -/
theorem c2_counterexample :
    (delete_expense c2dm (pystr "Food") (Sum.inr c2recA)).2 = true ∧
    (undo_delete (delete_expense c2dm (pystr "Food") (Sum.inr c2recA)).1).2 = true ∧
    (undo_delete (delete_expense c2dm (pystr "Food")
        (Sum.inr c2recA)).1).1.expenses.map (fun p => (p.1, p.2.map Rec.id)) =
      [(pystr "Food", [some 2, some 1])] ∧
    c2dm.expenses.map (fun p => (p.1, p.2.map Rec.id)) =
      [(pystr "Food", [some 1, some 2])] ∧
    ¬ ([(pystr "Food", [(some 2 : Option Int), some 1])] =
        [(pystr "Food", [(some 1 : Option Int), some 2])]) := by
  refine ⟨?_, ?_, ?_, ?_, by decide⟩
  · with_unfolding_all rfl
  · with_unfolding_all rfl
  · with_unfolding_all rfl
  · with_unfolding_all rfl

/-- Witness for C2: the amended theorem applied to the concrete
two-record store with its hypotheses discharged. -/
theorem c2_delete_then_undo_witness :
    (undo_delete (delete_expense c2dm (pystr "Food") (Sum.inr c2recA)).1).2 = true ∧
    (undo_delete (delete_expense c2dm (pystr "Food") (Sum.inr c2recA)).1).1.categories =
      c2dm.categories ∧
    (undo_delete (delete_expense c2dm (pystr "Food")
      (Sum.inr c2recA)).1).1.last_deleted = none ∧
    (undo_delete (delete_expense c2dm (pystr "Food")
      (Sum.inr c2recA)).1).1.last_cleared = none ∧
    (undo_delete (delete_expense c2dm (pystr "Food")
        (Sum.inr c2recA)).1).1.expenses.map Prod.fst =
      c2dm.expenses.map Prod.fst ∧
    ∀ k, List.Perm
      ((alookup k
        (undo_delete (delete_expense c2dm (pystr "Food")
          (Sum.inr c2recA)).1).1.expenses).getD [])
      ((alookup k c2dm.expenses).getD []) :=
  c2_delete_then_undo c2dm (pystr "Food") c2recA rfl (by with_unfolding_all rfl)

/-! ### C10: update_expense replacement-record shape -/

/-- C10 — a failed updateExpense (old record not found by value in the
normalized old category) returns false and leaves the store untouched;
a successful one appends, at the end of the (possibly different)
normalized target category, a replacement record carrying exactly
amount, date and description (each present, with fallback to the old
record's values) and no id field. -/
theorem c10_update_expense (dm : DM) (oc : PyStr) (r : Rec) (nd : NewData) :
    ((update_expense dm oc r nd).2 = false → (update_expense dm oc r nd).1 = dm) ∧
    ((update_expense dm oc r nd).2 = true →
      ((alookup (normalize_category_name
          (nd.category.getD (normalize_category_name oc)))
          (update_expense dm oc r nd).1.expenses).getD []).getLast? =
        some { id := none,
               amount := some (nd.amount.getD (r.amount.getD 0)),
               date := some (nd.date.getD (r.date.getD [])),
               description := some (nd.description.getD (r.description.getD [])) }) := by
  simp only [update_expense]
  cases halo : alookup (normalize_category_name oc) dm.expenses with
  | none => exact ⟨fun _ => rfl, fun h => by simp at h⟩
  | some recs =>
    by_cases hin : r ∈ recs
    · simp only [hin, if_pos, if_true]
      refine ⟨fun h => by simp at h, fun _ => ?_⟩
      rw [alookup_setdefaultAppend_self]
      simp only [Option.getD_some]
      exact List.getLast?_concat _
    · simp only [hin, if_neg, if_false]
      exact ⟨fun _ => trivial, fun h => by simp at h⟩

/-- Record present in the C10 store. -/
def c10rec : Rec :=
  { id := some 1, amount := some 10, date := some (pystr "2023-01-01"),
    description := some (pystr "Lunch") }

/-- Record absent from the C10 store (different amount). -/
def c10other : Rec :=
  { id := some 9, amount := some 99, date := some (pystr "2023-01-01"),
    description := some (pystr "Lunch") }

/-- Store for the C10 witness. -/
def c10dm : DM :=
  { expenses := [(pystr "Food", [c10rec])], categories := defaultCategories,
    last_deleted := none, last_cleared := none }

/-- New-field dict updating only the amount. -/
def c10nd : NewData :=
  { category := none, amount := some 7, date := none, description := none }

/-- Witness for C10: the failure branch at an absent record and the
success branch at the present one (submitted under the spelling
"food"), whose replacement record is id-less with the three fields. -/
theorem c10_update_expense_witness :
    (update_expense c10dm (pystr "Food") c10other c10nd).1 = c10dm ∧
    ((alookup (normalize_category_name
        (c10nd.category.getD (normalize_category_name (pystr "food"))))
        (update_expense c10dm (pystr "food") c10rec c10nd).1.expenses).getD
      []).getLast? =
      some { id := none,
             amount := some (c10nd.amount.getD (c10rec.amount.getD 0)),
             date := some (c10nd.date.getD (c10rec.date.getD [])),
             description := some (c10nd.description.getD
               (c10rec.description.getD [])) } :=
  ⟨(c10_update_expense c10dm (pystr "Food") c10other c10nd).1
      (by with_unfolding_all rfl),
   (c10_update_expense c10dm (pystr "food") c10rec c10nd).2
      (by with_unfolding_all rfl)⟩

end ExpenseTracker
